import Mathlib

/-!
Shallow embedding of the ranking engine of the market-backend repository:
`services/ranking_service.py` (FII ranking), `services/ranking_acoes_service.py`
(Brazilian stocks report) and `services/ranking_usa_service.py` (US stocks
report with its Firestore-backed daily cache).

pandas `Series.rank` is modelled over `ℚ`:
* `method='dense'` (used only by the Joel formula of the acoes service) is
  `denseRankAsc` / `denseRankDesc`: one plus the number of *distinct* values
  strictly before the given one;
* the pandas default `method='average'` (used everywhere else) is
  `avgRankAsc` / `avgRankDesc`: the ordinal positions of a tie group are
  averaged, giving `#strictly-before + (#ties + 1) / 2`;
* NaN handling (`na_option='keep'`): a NaN entry receives a NaN rank and is
  ignored when ranking the others.  The only place the pipeline can create a
  NaN from real (non-NaN) inputs is the Bazin upside `0/0` when `preco = 0`;
  it is modelled with `Option ℚ` (`none` = NaN) and the rank over a
  possibly-NaN column ranks only the `some` entries.
-/

namespace Market

/-- pandas dense rank, ascending: 1 + number of distinct values strictly smaller. -/
def denseRankAsc {α : Type} [LinearOrder α] [DecidableEq α] (vs : List α) (x : α) : ℕ :=
  (vs.toFinset.filter (fun y => y < x)).card + 1

/-- pandas dense rank, descending: 1 + number of distinct values strictly greater. -/
def denseRankDesc {α : Type} [LinearOrder α] [DecidableEq α] (vs : List α) (x : α) : ℕ :=
  (vs.toFinset.filter (fun y => x < y)).card + 1

/-- pandas default (average) rank, ascending: a tie group occupying ordinal
positions `c+1, …, c+e` gets the mean `c + (e+1)/2`. -/
def avgRankAsc (vs : List ℚ) (x : ℚ) : ℚ :=
  (vs.countP (fun y => decide (y < x)) : ℚ) +
    ((vs.countP (fun y => decide (y = x)) : ℚ) + 1) / 2

/-- pandas default (average) rank, descending. -/
def avgRankDesc (vs : List ℚ) (x : ℚ) : ℚ :=
  (vs.countP (fun y => decide (x < y)) : ℚ) +
    ((vs.countP (fun y => decide (y = x)) : ℚ) + 1) / 2

/-- Average rank, ascending, over a column that may contain NaN (`none`)
entries; NaN entries are ignored (pandas `na_option='keep'`). -/
def avgRankAscO (vs : List (Option ℚ)) (x : ℚ) : ℚ :=
  (vs.countP (fun o => match o with | some y => decide (y < x) | none => false) : ℚ) +
    ((vs.countP (fun o => match o with | some y => decide (y = x) | none => false) : ℚ) + 1) / 2

/-- Average rank, descending, over a column that may contain NaN entries. -/
def avgRankDescO (vs : List (Option ℚ)) (x : ℚ) : ℚ :=
  (vs.countP (fun o => match o with | some y => decide (x < y) | none => false) : ℚ) +
    ((vs.countP (fun o => match o with | some y => decide (y = x) | none => false) : ℚ) + 1) / 2

/-!
## `services/ranking_acoes_service.py`

One row of the cleaned Fundamentus stocks table (after `fetch_fundamentus_acoes`
renamed, mapped sectors and coerced all numeric columns; `lpa` is derived there
as `preco / p_l` when `p_l > 0`, else `0`).
-/

structure ARow where
  ativo : String
  setor : String
  preco : ℚ
  p_l : ℚ
  p_vp : ℚ
  dy : ℚ
  ev_ebit : ℚ
  roic : ℚ
  roe : ℚ
  liq_media_diaria : ℚ
  margem_liquida : ℚ
  cagr_lucros_5a : ℚ
  div_liq_patrimonio : ℚ
deriving DecidableEq

/-- `df['lpa'] = preco / p_l if p_l > 0 else 0` (computed at fetch time). -/
def ARow.lpa (r : ARow) : ℚ :=
  if 0 < r.p_l then r.preco / r.p_l else 0

/-- The basic filters of `get_relatorio_geral_acoes`:
liquidity floor, positive P/L, positive dividend yield. -/
def filterAcoes (t : List ARow) : List ARow :=
  t.filter (fun r => decide (200000 ≤ r.liq_media_diaria) &&
    decide (0 < r.p_l) && decide (0 < r.dy))

/-- Sectors penalized by the Joel (Magic Formula) ranking. -/
def SETORES_JOEL_PENALIZADOS : List String :=
  ["Financeiro", "Bancário", "Seguros", "Energia", "Utilidade Pública"]

/-- Sectors favored by the Barsi ranking (`SETORES_BARSI_BEST`). -/
def SETORES_BARSI_BEST : List String :=
  ["Bancário", "Financeiro", "Energia", "Utilidade Pública", "Petróleo",
   "Saneamento", "Água", "Seguros", "Previdência", "Telecomunicações", "Telecom"]

/-- `np.where(ev_ebit > 0, 1/ev_ebit, 0)`. -/
def earningYield (r : ARow) : ℚ :=
  if 0 < r.ev_ebit then 1 / r.ev_ebit else 0

/-- `rank(ascending=False, method='dense')` of the earnings-yield column. -/
def rankEarningYield (t : List ARow) (r : ARow) : ℕ :=
  denseRankDesc (t.map earningYield) (earningYield r)

/-- `rank(ascending=False, method='dense')` of the ROIC column. -/
def rankRoic (t : List ARow) (r : ARow) : ℕ :=
  denseRankDesc (t.map ARow.roic) r.roic

/-- The fixed Joel sector penalty (`PENALTY = 1_000_000`). -/
def joelPenalty (r : ARow) : ℕ :=
  if r.setor ∈ SETORES_JOEL_PENALIZADOS then 1000000 else 0

/-- `score_joel = rank_earning_yield + rank_roic + penalty_joel`. -/
def scoreJoel (t : List ARow) (r : ARow) : ℕ :=
  rankEarningYield t r + rankRoic t r + joelPenalty r

/-- `RANKING_JOEL = score_joel.rank(ascending=True, method='dense')`. -/
def rankingJoel (t : List ARow) (r : ARow) : ℕ :=
  denseRankAsc (t.map (scoreJoel t)) (scoreJoel t r)

/-- `calc_graham`: intrinsic value `(lpa * (8.5 + 2*cagr) * 4.4) / 22.5` when
`lpa > 0`, else `0`. -/
def valorIntrinseco (r : ARow) : ℚ :=
  if 0 < r.lpa then (r.lpa * ((8.5 : ℚ) + 2 * r.cagr_lucros_5a) * (4.4 : ℚ)) / (22.5 : ℚ)
  else 0

/-- `margem_seg = (valor_intrinseco - preco)/valor_intrinseco` when the
intrinsic value is positive, else the sentinel `-10`. -/
def margemSeg (r : ARow) : ℚ :=
  if 0 < valorIntrinseco r then (valorIntrinseco r - r.preco) / valorIntrinseco r
  else -10

/-- The Graham composite `margem_seg.rank(ascending=False) + p_vp.rank(ascending=True)`
(average method: pandas default). -/
def grahamComposite (t : List ARow) (r : ARow) : ℚ :=
  avgRankDesc (t.map margemSeg) (margemSeg r) + avgRankAsc (t.map ARow.p_vp) r.p_vp

/-- `RANKING_GRAHAM`: average-method ascending rank of the Graham composite. -/
def rankingGraham (t : List ARow) (r : ARow) : ℚ :=
  avgRankAsc (t.map (grahamComposite t)) (grahamComposite t r)

/-- `preco_teto_bazin = preco * dy / 6`. -/
def precoTetoBazin (r : ARow) : ℚ :=
  r.preco * r.dy / 6

/-- `upside_bazin = preco_teto_bazin / preco - 1`.  When `preco = 0` the
numerator is also `0` and pandas produces the float NaN (`0/0`), modelled as
`none`; for `preco ≠ 0` the quotient is an ordinary rational. -/
def upsideBazin (r : ARow) : Option ℚ :=
  if r.preco = 0 then none else some (precoTetoBazin r / r.preco - 1)

/-- The Bazin composite `upside.rank(ascending=False) + dy.rank(ascending=False)`;
a NaN upside propagates (NaN + x = NaN). -/
def bazinComposite (t : List ARow) (r : ARow) : Option ℚ :=
  (upsideBazin r).map (fun u =>
    avgRankDescO (t.map (fun q => upsideBazin q)) u + avgRankDesc (t.map ARow.dy) r.dy)

/-- `RANKING_BAZIN`: ascending average rank of the Bazin composite; rows whose
composite is NaN keep a NaN rank. -/
def rankingBazin (t : List ARow) (r : ARow) : Option ℚ :=
  (bazinComposite t r).map (fun c => avgRankAscO (t.map (bazinComposite t)) c)

/-- `score_barsi = 2*rank(dy desc) + rank(p_vp asc) + rank(roe desc) + rank(div_liq asc)`. -/
def scoreBarsi (t : List ARow) (r : ARow) : ℚ :=
  avgRankDesc (t.map ARow.dy) r.dy * 2 + avgRankAsc (t.map ARow.p_vp) r.p_vp +
    avgRankDesc (t.map ARow.roe) r.roe + avgRankAsc (t.map ARow.div_liq_patrimonio) r.div_liq_patrimonio

/-- `ajuste_setor`: multiply by `0.8` when the sector is in `SETORES_BARSI_BEST`. -/
def barsiAdjusted (t : List ARow) (r : ARow) : ℚ :=
  if r.setor ∈ SETORES_BARSI_BEST then scoreBarsi t r * (0.8 : ℚ) else scoreBarsi t r

/-- `RANKING_BARSI`: ascending average rank of the sector-adjusted Barsi score. -/
def rankingBarsi (t : List ARow) (r : ARow) : ℚ :=
  avgRankAsc (t.map (barsiAdjusted t)) (barsiAdjusted t r)

/-- Truncation toward zero (`astype(int)` semantics). -/
def truncQ (x : ℚ) : ℤ :=
  if x < 0 then ⌈x⌉ else ⌊x⌋

/-- Round-half-to-even at integer precision (numpy/pandas `round` semantics on
exact values; the float-representation noise of the original is not modelled). -/
def roundHalfEven (x : ℚ) : ℤ :=
  if x - ⌊x⌋ < 1/2 then ⌊x⌋
  else if 1/2 < x - ⌊x⌋ then ⌊x⌋ + 1
  else if 2 ∣ ⌊x⌋ then ⌊x⌋ else ⌊x⌋ + 1

/-- `Series.round(2)`. -/
def round2 (x : ℚ) : ℚ :=
  (roundHalfEven (x * 100) : ℚ) / 100

/-- One record of the acoes report (the columns selected at the end of
`get_relatorio_geral_acoes`). -/
structure AOut where
  ativo : String
  setor : String
  preco : ℚ
  dy : ℚ
  p_l : ℚ
  p_vp : ℚ
  RANKING_JOEL : ℕ
  RANKING_GRAHAM : ℚ
  RANKING_BAZIN : Option ℚ
  RANKING_BARSI : ℚ
  valor_intrinseco : ℚ
  preco_teto_bazin : ℚ
deriving DecidableEq

/-- Assemble the output record of one filtered row (`round(2)` on the listed
numeric columns, rankings as computed). -/
def mkAOut (t : List ARow) (r : ARow) : AOut :=
  { ativo := r.ativo
    setor := r.setor
    preco := round2 r.preco
    dy := round2 r.dy
    p_l := round2 r.p_l
    p_vp := round2 r.p_vp
    RANKING_JOEL := rankingJoel t r
    RANKING_GRAHAM := rankingGraham t r
    RANKING_BAZIN := rankingBazin t r
    RANKING_BARSI := rankingBarsi t r
    valor_intrinseco := round2 (valorIntrinseco r)
    preco_teto_bazin := round2 (precoTetoBazin r) }

/-- `get_relatorio_geral_acoes` after the fetch: filter, compute all four
rankings over the filtered table, and export every row. -/
def relatorioGeralAcoes (t : List ARow) : List AOut :=
  let f := filterAcoes t
  f.map (mkAOut f)

/-!
## `services/ranking_service.py` (FII ranking)
-/

/-- One row of the cleaned Fundamentus FII table (after renaming and numeric
coercion in `fetch_fundamentus_data`). -/
structure FRow where
  ticker : String
  setor : String
  dy : ℚ
  pvp : ℚ
  liquidez : ℚ
deriving DecidableEq

/-- `str.contains("Desenvolvimento", case=False)`: case-insensitive substring
test on the sector label. -/
def containsDesenvolvimento (s : String) : Bool :=
  decide (List.IsInfix "desenvolvimento".toList s.toLower.toList)

/-- The eligibility filters of `calculate_ranking`: liquidity floor `200000`,
`pvp > 0`, `dy > 0`, sector not containing "Desenvolvimento". -/
def filterFii (t : List FRow) : List FRow :=
  t.filter (fun r => decide (200000 ≤ r.liquidez) && decide (0 < r.pvp) &&
    decide (0 < r.dy) && !containsDesenvolvimento r.setor)

/-- `shank_valor = pvp.rank(ascending=True) + dy.rank(ascending=False)`. -/
def shankValor (t : List FRow) (r : FRow) : ℚ :=
  avgRankAsc (t.map FRow.pvp) r.pvp + avgRankDesc (t.map FRow.dy) r.dy

/-- `shank_pos = shank_valor.rank(ascending=True)`. -/
def shankPos (t : List FRow) (r : FRow) : ℚ :=
  avgRankAsc (t.map (shankValor t)) (shankValor t r)

/-- `rentab_acum = 0` (hard-coded in the source). -/
def rentabAcum : ℚ := 0

/-- `volatilidade = 0` (hard-coded in the source). -/
def volatilidade : ℚ := 0

/-- `smart_valor`; `np.log1p` is a transcendental function on floats, modelled
here as an explicit parameter `log1p`. -/
def smartValor (log1p : ℚ → ℚ) (r : FRow) : ℚ :=
  (r.dy * 25 + rentabAcum * 25) * (0.5 : ℚ) +
    ((1 - r.pvp) * 15 + 1 / (1 + volatilidade) * 15) * (0.3 : ℚ) +
    (log1p r.liquidez * 10) * (0.2 : ℚ)

/-- `smart_pos = smart_valor.rank(ascending=False)`. -/
def smartPos (log1p : ℚ → ℚ) (t : List FRow) (r : FRow) : ℚ :=
  avgRankDesc (t.map (smartValor log1p)) (smartValor log1p r)

/-- One record of the FII ranking response (`shank_pos`/`smart_pos` are cast
with `astype(int)` after sorting, `*_valor` rounded to 2 decimals). -/
structure FOut where
  ticker : String
  setor : String
  dy : ℚ
  pvp : ℚ
  liquidez : ℚ
  shank_pos : ℤ
  shank_valor : ℚ
  smart_pos : ℤ
  smart_valor : ℚ
deriving DecidableEq

/-- Build the exported record for one row of the filtered FII table. -/
def mkFOut (log1p : ℚ → ℚ) (t : List FRow) (r : FRow) : FOut :=
  { ticker := r.ticker
    setor := r.setor
    dy := r.dy
    pvp := r.pvp
    liquidez := r.liquidez
    shank_pos := truncQ (shankPos t r)
    shank_valor := round2 (shankValor t r)
    smart_pos := truncQ (smartPos log1p t r)
    smart_valor := round2 (smartValor log1p r) }

/-- `calculate_ranking` after the fetch: filter, early-return `[]` when the
filtered table is empty, compute Shank and Smart scores, sort by the selected
rank column (`smart_pos` when `sort_by == 'smart'`, else `shank_pos`), format
and export. -/
def calculateRanking (log1p : ℚ → ℚ) (sortBy : String) (t : List FRow) : List FOut :=
  let f := filterFii t
  if f = [] then []
  else
    let sorted :=
      if sortBy = "smart" then
        f.mergeSort (fun a b => decide (smartPos log1p f a ≤ smartPos log1p f b))
      else
        f.mergeSort (fun a b => decide (shankPos f a ≤ shankPos f b))
    sorted.map (mkFOut log1p f)

/-!
## `services/ranking_usa_service.py` — the daily Firestore cache state machine

`get_relatorio_geral_usa` is modelled as a transition function over an explicit
state; days are numbers (`_today_sp_str` in a fixed timezone), time is in
seconds.  The Fundamentals Provider (NASDAQ ticker list + yfinance bulk fetch)
is abstracted as the list of rows it would produce; the returned `ℕ` counts how
many provider fetches the invocation performed.
-/

/-- One fetched US asset row (only the fields the cache logic depends on are
kept; `dy` drives the one scoring-relevant filter). -/
structure URow where
  ativo : String
  dy : ℚ
deriving DecidableEq

/-- The persistent and in-memory cache state owned by the USA service:
the `system_control/ranking_usa_sync` flag (`last_checked_date`), the
`ranking_usa` collection (all docs carry the same write date) and the
module-level `_cache_usa_full` dict. -/
structure UsaState where
  flag : Option ℕ
  store : Option (ℕ × List URow)
  mem : Option (ℕ × List URow)
deriving DecidableEq

/-- `load_ranking_from_db`: the records stored for the given day, `[]` otherwise. -/
def loadStore (store : Option (ℕ × List URow)) (today : ℕ) : List URow :=
  match store with
  | some (d, recs) => if d = today then recs else []
  | none => []

/-- The in-memory cache test `data is not None and now - timestamp < 86400`. -/
def memValid (mem : Option (ℕ × List URow)) (now : ℕ) : Bool :=
  match mem with
  | some (ts, _) => decide (now - ts < 86400)
  | none => false

/-- One invocation of `get_relatorio_geral_usa`: returns the response, the
number of Fundamentals Provider fetches performed (0 or 1) and the next state.
Mirrors the source: (1) daily-log hit served from Firestore; (2) in-memory
cache hit; (3) fresh fetch, `dy > 0` filter, empty-result early returns, then
persistence (delete old, save, set flag) and memory-cache update. -/
def usaInvoke (st : UsaState) (today now : ℕ) (fetched : List URow) :
    List URow × ℕ × UsaState :=
  if st.flag = some today ∧ loadStore st.store today ≠ [] then
    (loadStore st.store today, 0, { st with mem := some (now, loadStore st.store today) })
  else if memValid st.mem now then
    (match st.mem with | some (_, d) => d | none => [], 0, st)
  else if fetched = [] then ([], 1, st)
  else if fetched.filter (fun r => decide (0 < r.dy)) = [] then ([], 1, st)
  else
    (fetched.filter (fun r => decide (0 < r.dy)), 1,
      { flag := some today
        store := some (today, fetched.filter (fun r => decide (0 < r.dy)))
        mem := some (now, fetched.filter (fun r => decide (0 < r.dy))) })

/-- The state invariant of the USA cache: whenever the daily flag is set for a
day, the store holds that day's (non-empty) report.  It holds initially
(`flag = none`) and is preserved by every invocation. -/
def UsaInv (st : UsaState) : Prop :=
  ∀ d, st.flag = some d → ∃ recs, st.store = some (d, recs) ∧ recs ≠ []

/-!
## `fetch_fundamentus_data` (FII fetch with 1-hour TTL and fallback)

The cache is `none` (data `None`) or `some (timestamp, table)`; `result` is
what the scrape would produce (`Except.error ()` = raised exception).
-/

/-- `fetch_fundamentus_data`: serve the memory cache while fresh
(`now - ts < 3600`); otherwise fetch; on fetch failure fall back to any cached
table, and re-raise the exception when there is none.  Returns the table and
the updated cache. -/
def fetchFundamentusData (cache : Option (ℕ × List FRow)) (now : ℕ)
    (result : Except Unit (List FRow)) : Except Unit (List FRow × Option (ℕ × List FRow)) :=
  match cache with
  | some (ts, d) =>
      if now - ts < 3600 then .ok (d, cache)
      else
        match result with
        | .ok t => .ok (t, some (now, t))
        | .error _ => .ok (d, cache)
  | none =>
      match result with
      | .ok t => .ok (t, some (now, t))
      | .error e => .error e

/-!
## Concrete fixtures used by witnesses and counterexamples
-/

/-- A stock row failing the liquidity floor (every other field benign). -/
def aRowNoLiq : ARow :=
  { ativo := "X", setor := "Outros", preco := 1, p_l := 1, p_vp := 1, dy := 1,
    ev_ebit := 1, roic := 1, roe := 1, liq_media_diaria := 0,
    margem_liquida := 1, cagr_lucros_5a := 1, div_liq_patrimonio := 1 }

/-- An FII row failing the liquidity floor. -/
def fRowNoLiq : FRow :=
  { ticker := "Y", setor := "Outros", dy := 1, pvp := 1, liquidez := 0 }

/-- A US row without dividends (removed by the `dy > 0` filter). -/
def uRowNoDiv : URow := { ativo := "Z", dy := 0 }

/-- A US row with dividends. -/
def uRowDiv : URow := { ativo := "A", dy := 1 }

/-- The initial (cold) USA cache state. -/
def usaStInit : UsaState := { flag := none, store := none, mem := none }

/-- A stock row in a Barsi-preferred sector. -/
def barsiRowPref : ARow :=
  { ativo := "P", setor := "Energia", preco := 10, p_l := 10, p_vp := 1, dy := 5,
    ev_ebit := 5, roic := 10, roe := 10, liq_media_diaria := 300000,
    margem_liquida := 10, cagr_lucros_5a := 0, div_liq_patrimonio := 1 }

/-- A stock row identical to `barsiRowPref` in every scoring input but in a
non-preferred sector. -/
def barsiRowOther : ARow :=
  { ativo := "Q", setor := "Outros", preco := 10, p_l := 10, p_vp := 1, dy := 5,
    ev_ebit := 5, roic := 10, roe := 10, liq_media_diaria := 300000,
    margem_liquida := 10, cagr_lucros_5a := 0, div_liq_patrimonio := 1 }

/-- Two-row table for the sector-discount witness. -/
def barsiTable : List ARow := [barsiRowPref, barsiRowOther]

/-- An FII row with strong metrics, passing every filter. -/
def fiiRow1 : FRow :=
  { ticker := "F1", setor := "Papel", dy := 8, pvp := (0.8 : ℚ), liquidez := 500000 }

/-- An FII row with weaker metrics, passing every filter. -/
def fiiRow2 : FRow :=
  { ticker := "F2", setor := "Outros", dy := 2, pvp := (1.5 : ℚ), liquidez := 500000 }

/-- Two-row FII table for the sort witnesses. -/
def fiiTable : List FRow := [fiiRow1, fiiRow2]

/-- A stock row with `ev_ebit = 0`, `p_vp = 0` and `preco = 0` (the record
"with all three fields at 0" of the zero-division claim) that passes the
basic filters. -/
def zeroRow : ARow :=
  { ativo := "Z0", setor := "Outros", preco := 0, p_l := 10, p_vp := 0, dy := 5,
    ev_ebit := 0, roic := 1, roe := 1, liq_media_diaria := 300000,
    margem_liquida := 1, cagr_lucros_5a := 0, div_liq_patrimonio := 1 }

/-- A stock row with positive intrinsic value but price far above it:
`lpa = 100/1000`, intrinsic value `187/1125`, margin of safety ≈ −600. -/
def grahamRowDeep : ARow :=
  { ativo := "G1", setor := "Outros", preco := 100, p_l := 1000, p_vp := 1, dy := 5,
    ev_ebit := 5, roic := 1, roe := 1, liq_media_diaria := 300000,
    margem_liquida := 1, cagr_lucros_5a := 0, div_liq_patrimonio := 1 }

/-- A stock row with negative intrinsic value (`lpa = 1`, growth −10 makes
`8.5 + 2*cagr` negative), hence the sentinel margin −10. -/
def grahamRowNeg : ARow :=
  { ativo := "G2", setor := "Outros", preco := 10, p_l := 10, p_vp := 1, dy := 5,
    ev_ebit := 5, roic := 1, roe := 1, liq_media_diaria := 300000,
    margem_liquida := 1, cagr_lucros_5a := -10, div_liq_patrimonio := 1 }

/-- A healthy stock row whose margin of safety is above the sentinel. -/
def grahamRowGood : ARow :=
  { ativo := "G3", setor := "Outros", preco := 1, p_l := 1, p_vp := 1, dy := 5,
    ev_ebit := 5, roic := 1, roe := 1, liq_media_diaria := 300000,
    margem_liquida := 1, cagr_lucros_5a := 0, div_liq_patrimonio := 1 }

/-- Two-row table where a positive-intrinsic-value asset ranks behind the
sentinel asset on margin of safety. -/
def grahamTable : List ARow := [grahamRowDeep, grahamRowNeg]

/-- The dense-rank property exactly as the spec words it for a formula with
composite scores `scoreOf` and final positions `rankOf` over a table: every
rank is a positive integer `1 … K` (`K` = number of distinct composite score
values), every position in `1 … K` is attained (no gaps), and equal scores
share equal rank.  This is the spec-side definition used to compare the
claim against the code's rankings. -/
def SpecDenseRanks (scoreOf rankOf : ARow → ℚ) (t : List ARow) : Prop :=
  (∀ r ∈ t, ∃ k : ℕ, rankOf r = (k : ℚ) ∧ 1 ≤ k ∧
    k ≤ (t.map scoreOf).toFinset.card) ∧
  (∀ k : ℕ, 1 ≤ k → k ≤ (t.map scoreOf).toFinset.card →
    ∃ r ∈ t, rankOf r = (k : ℚ)) ∧
  (∀ r ∈ t, ∀ q ∈ t, scoreOf r = scoreOf q → rankOf r = rankOf q)

/-- A stock row for the tie counterexample. -/
def tieRowA : ARow :=
  { ativo := "T1", setor := "Outros", preco := 10, p_l := 10, p_vp := 1, dy := 5,
    ev_ebit := 5, roic := 10, roe := 10, liq_media_diaria := 300000,
    margem_liquida := 10, cagr_lucros_5a := 0, div_liq_patrimonio := 1 }

/-- A second stock row with identical numeric fields (a perfect tie). -/
def tieRowB : ARow :=
  { ativo := "T2", setor := "Outros", preco := 10, p_l := 10, p_vp := 1, dy := 5,
    ev_ebit := 5, roic := 10, roe := 10, liq_media_diaria := 300000,
    margem_liquida := 10, cagr_lucros_5a := 0, div_liq_patrimonio := 1 }

/-- Two perfectly tied rows. -/
def tieTable : List ARow := [tieRowA, tieRowB]

/-- Row `i` of the large Joel counterexample table: strictly decreasing
earnings yield (`ev_ebit = i + 1`) and ROIC (`-i`); row 0 is the only row in
a penalized sector. -/
def mkJRow (i : ℕ) : ARow :=
  { ativo := "J", setor := if i = 0 then "Financeiro" else "Outros", preco := 1,
    p_l := 1, p_vp := 1, dy := 5, ev_ebit := (i : ℚ) + 1, roic := -(i : ℚ),
    roe := 1, liq_media_diaria := 300000, margem_liquida := 1,
    cagr_lucros_5a := 0, div_liq_patrimonio := 1 }

/-- A 500001-row table on which the fixed `1_000_000` Joel penalty no longer
pushes the penalized asset strictly below every other asset: the base score
of the worst non-penalized row also reaches `2 · 500001 = 1000002`. -/
def joelTable : List ARow := (List.range 500001).map mkJRow

/-- A USA cache state holding a prior day's (day 7) report. -/
def usaStPrior : UsaState := { flag := some 7, store := some (7, [uRowDiv]), mem := none }

/-!
## General properties of the rank functions
-/

section RankLemmas

variable {α : Type} [LinearOrder α] [DecidableEq α]

theorem one_le_denseRankAsc (vs : List α) (x : α) : 1 ≤ denseRankAsc vs x :=
  Nat.le_add_left 1 _

theorem one_le_denseRankDesc (vs : List α) (x : α) : 1 ≤ denseRankDesc vs x :=
  Nat.le_add_left 1 _

theorem denseRankAsc_le_card {vs : List α} {x : α} (hx : x ∈ vs) :
    denseRankAsc vs x ≤ vs.toFinset.card := by
  refine Nat.succ_le_of_lt (Finset.card_lt_card ?_)
  refine (Finset.ssubset_iff_of_subset (Finset.filter_subset _ _)).mpr ?_
  exact ⟨x, List.mem_toFinset.mpr hx, by simp⟩

theorem denseRankDesc_le_card {vs : List α} {x : α} (hx : x ∈ vs) :
    denseRankDesc vs x ≤ vs.toFinset.card := by
  refine Nat.succ_le_of_lt (Finset.card_lt_card ?_)
  refine (Finset.ssubset_iff_of_subset (Finset.filter_subset _ _)).mpr ?_
  exact ⟨x, List.mem_toFinset.mpr hx, by simp⟩

theorem denseRankAsc_lt_of_lt {vs : List α} {x y : α} (hx : x ∈ vs) (hxy : x < y) :
    denseRankAsc vs x < denseRankAsc vs y := by
  have hss : vs.toFinset.filter (fun z => z < x) ⊂ vs.toFinset.filter (fun z => z < y) := by
    refine (Finset.ssubset_iff_of_subset
      (Finset.monotone_filter_right _ (fun z hz => lt_trans hz hxy))).mpr ?_
    exact ⟨x, Finset.mem_filter.mpr ⟨List.mem_toFinset.mpr hx, hxy⟩, by simp⟩
  exact Nat.add_lt_add_right (Finset.card_lt_card hss) 1

/-- For every `k < |S|` there is an element of `S` with exactly `k` smaller
elements in `S` (the `k`-th smallest element). -/
theorem exists_card_filter_lt_eq (S : Finset α) (k : ℕ) (hk : k < S.card) :
    ∃ x ∈ S, (S.filter (fun y => y < x)).card = k := by
  induction k with
  | zero =>
      have hne : S.Nonempty := Finset.card_pos.mp hk
      refine ⟨S.min' hne, S.min'_mem hne, ?_⟩
      rw [Finset.card_eq_zero, Finset.filter_eq_empty_iff]
      intro y hy
      exact not_lt.mpr (S.min'_le y hy)
  | succ k ih =>
      obtain ⟨x, hxS, hxcard⟩ := ih (Nat.lt_of_succ_lt hk)
      have hsplit : (S.filter (fun y => y < x)).card +
          (S.filter (fun y => ¬ y < x)).card = S.card :=
        Finset.filter_card_add_filter_neg_card_eq_card _
      have hTne : (S.filter (fun y => x < y)).Nonempty := by
        rw [Finset.nonempty_iff_ne_empty]
        intro hT
        have hsub : S.filter (fun y => ¬ y < x) ⊆ {x} := by
          intro y hy
          obtain ⟨hyS, hylt⟩ := Finset.mem_filter.mp hy
          have hnx : ¬ x < y := by
            intro hxy
            exact absurd (Finset.mem_filter.mpr ⟨hyS, hxy⟩) (by rw [hT]; simp)
          simp only [Finset.mem_singleton]
          exact le_antisymm (not_lt.mp hnx) (not_lt.mp hylt)
        have := Finset.card_le_card hsub
        simp only [Finset.card_singleton] at this
        omega
      set y := (S.filter (fun z => x < z)).min' hTne with hy
      have hyS : y ∈ S ∧ x < y := by
        have := (S.filter (fun z => x < z)).min'_mem hTne
        exact Finset.mem_filter.mp this
      refine ⟨y, hyS.1, ?_⟩
      have hkey : S.filter (fun z => z < y) = insert x (S.filter (fun z => z < x)) := by
        ext z
        simp only [Finset.mem_filter, Finset.mem_insert]
        constructor
        · rintro ⟨hzS, hzy⟩
          rcases lt_trichotomy z x with h | h | h
          · exact Or.inr ⟨hzS, h⟩
          · exact Or.inl h
          · exfalso
            have : y ≤ z := (S.filter (fun w => x < w)).min'_le z
              (Finset.mem_filter.mpr ⟨hzS, h⟩)
            exact absurd hzy (not_lt.mpr this)
        · rintro (rfl | ⟨hzS, hzx⟩)
          · exact ⟨hxS, hyS.2⟩
          · exact ⟨hzS, lt_trans hzx hyS.2⟩
      rw [hkey, Finset.card_insert_of_not_mem (by simp), hxcard]

/-- Dense ascending ranks attain every value `1 … K` (`K` = number of distinct
values): denseness, no gaps. -/
theorem exists_denseRankAsc_eq (vs : List α) (k : ℕ) (h1 : 1 ≤ k)
    (h2 : k ≤ vs.toFinset.card) : ∃ x ∈ vs, denseRankAsc vs x = k := by
  obtain ⟨x, hxS, hc⟩ := exists_card_filter_lt_eq vs.toFinset (k - 1) (by omega)
  refine ⟨x, List.mem_toFinset.mp hxS, ?_⟩
  unfold denseRankAsc
  omega

/-- Dense descending rank of the `i`-th value of a strictly decreasing
sequence is `i + 1`. -/
theorem denseRankDesc_map_strictAnti (f : ℕ → α) (hf : StrictAnti f) {n i : ℕ}
    (hi : i < n) : denseRankDesc ((List.range n).map f) (f i) = i + 1 := by
  unfold denseRankDesc
  have key : (((List.range n).map f).toFinset.filter (fun y => f i < y)) =
      (Finset.range i).image f := by
    ext y
    simp only [Finset.mem_filter, List.mem_toFinset, List.mem_map, List.mem_range,
      Finset.mem_image, Finset.mem_range]
    constructor
    · rintro ⟨⟨j, _, rfl⟩, hlt⟩
      exact ⟨j, hf.lt_iff_lt.mp hlt, rfl⟩
    · rintro ⟨j, hj, rfl⟩
      exact ⟨⟨j, lt_trans hj hi, rfl⟩, hf.lt_iff_lt.mpr hj⟩
  rw [key, Finset.card_image_of_injective _ hf.injective, Finset.card_range]

end RankLemmas

theorem countP_add_countP_le_of_disjoint {p q r : ℚ → Bool} (l : List ℚ)
    (hpr : ∀ z, p z = true → r z = true) (hqr : ∀ z, q z = true → r z = true)
    (hpq : ∀ z, ¬(p z = true ∧ q z = true)) :
    l.countP p + l.countP q ≤ l.countP r := by
  induction l with
  | nil => simp
  | cons a l ih =>
      rw [List.countP_cons, List.countP_cons, List.countP_cons]
      by_cases hp : p a = true
      · have hq : ¬ q a = true := fun hq => hpq a ⟨hp, hq⟩
        simp [hp, hq, hpr a hp]
        omega
      · by_cases hq : q a = true
        · simp [hp, hq, hqr a hq]
          omega
        · rcases Bool.eq_false_or_eq_true (r a) with h | h <;> simp [hp, hq, h] <;> omega

theorem one_le_countP_eq {vs : List ℚ} {x : ℚ} (hx : x ∈ vs) :
    1 ≤ vs.countP (fun y => decide (y = x)) :=
  List.one_le_countP_iff.mpr ⟨x, hx, by simp⟩

theorem avgRankAsc_pos (vs : List ℚ) (x : ℚ) : 0 < avgRankAsc vs x := by
  unfold avgRankAsc
  positivity

theorem avgRankDesc_pos (vs : List ℚ) (x : ℚ) : 0 < avgRankDesc vs x := by
  unfold avgRankDesc
  positivity

theorem avgRankAsc_le_of_le {vs : List ℚ} {x y : ℚ} (hxy : x ≤ y) :
    avgRankAsc vs x ≤ avgRankAsc vs y := by
  rcases eq_or_lt_of_le hxy with rfl | hlt
  · exact le_refl _
  · have hcount : vs.countP (fun z => decide (z < x)) + vs.countP (fun z => decide (z = x)) ≤
        vs.countP (fun z => decide (z < y)) := by
      refine countP_add_countP_le_of_disjoint vs ?_ ?_ ?_
      · intro z hz
        simp only [decide_eq_true_eq] at hz ⊢
        exact lt_trans hz hlt
      · intro z hz
        simp only [decide_eq_true_eq] at hz ⊢
        exact hz ▸ hlt
      · intro z ⟨h1, h2⟩
        simp only [decide_eq_true_eq] at h1 h2
        exact absurd h1 (h2 ▸ lt_irrefl x)
    unfold avgRankAsc
    have h1 : ((vs.countP (fun z => decide (z < x)) : ℚ) + vs.countP (fun z => decide (z = x))) ≤
        vs.countP (fun z => decide (z < y)) := by exact_mod_cast hcount
    have h2 : (0 : ℚ) ≤ vs.countP (fun z => decide (z = x)) := by positivity
    have h3 : (0 : ℚ) ≤ vs.countP (fun z => decide (z = y)) := by positivity
    linarith

theorem avgRankAsc_lt_of_lt {vs : List ℚ} {x y : ℚ} (hx : x ∈ vs) (hxy : x < y) :
    avgRankAsc vs x < avgRankAsc vs y := by
  have hcount : vs.countP (fun z => decide (z < x)) + vs.countP (fun z => decide (z = x)) ≤
      vs.countP (fun z => decide (z < y)) := by
    refine countP_add_countP_le_of_disjoint vs ?_ ?_ ?_
    · intro z hz
      simp only [decide_eq_true_eq] at hz ⊢
      exact lt_trans hz hxy
    · intro z hz
      simp only [decide_eq_true_eq] at hz ⊢
      exact hz ▸ hxy
    · intro z ⟨h1, h2⟩
      simp only [decide_eq_true_eq] at h1 h2
      exact absurd h1 (h2 ▸ lt_irrefl x)
  have he : 1 ≤ vs.countP (fun y => decide (y = x)) := one_le_countP_eq hx
  unfold avgRankAsc
  have h1 : ((vs.countP (fun z => decide (z < x)) : ℚ) + vs.countP (fun z => decide (z = x))) ≤
      vs.countP (fun z => decide (z < y)) := by exact_mod_cast hcount
  have h2 : (1 : ℚ) ≤ vs.countP (fun z => decide (z = x)) := by exact_mod_cast he
  have h3 : (0 : ℚ) ≤ vs.countP (fun z => decide (z = y)) := by positivity
  linarith

theorem avgRankDesc_lt_of_gt {vs : List ℚ} {x y : ℚ} (hx : x ∈ vs) (hyx : y < x) :
    avgRankDesc vs x < avgRankDesc vs y := by
  have hcount : vs.countP (fun z => decide (x < z)) + vs.countP (fun z => decide (z = x)) ≤
      vs.countP (fun z => decide (y < z)) := by
    refine countP_add_countP_le_of_disjoint vs ?_ ?_ ?_
    · intro z hz
      simp only [decide_eq_true_eq] at hz ⊢
      exact lt_trans hyx hz
    · intro z hz
      simp only [decide_eq_true_eq] at hz ⊢
      exact hz ▸ hyx
    · intro z ⟨h1, h2⟩
      simp only [decide_eq_true_eq] at h1 h2
      exact absurd h1 (h2 ▸ lt_irrefl x)
  have he : 1 ≤ vs.countP (fun y => decide (y = x)) := one_le_countP_eq hx
  unfold avgRankDesc
  have h1 : ((vs.countP (fun z => decide (x < z)) : ℚ) + vs.countP (fun z => decide (z = x))) ≤
      vs.countP (fun z => decide (y < z)) := by exact_mod_cast hcount
  have h2 : (1 : ℚ) ≤ vs.countP (fun z => decide (z = x)) := by exact_mod_cast he
  have h3 : (0 : ℚ) ≤ vs.countP (fun z => decide (z = y)) := by positivity
  linarith

theorem truncQ_mono {x y : ℚ} (hxy : x ≤ y) : truncQ x ≤ truncQ y := by
  unfold truncQ
  by_cases hx : x < 0
  · by_cases hy : y < 0
    · simp only [hx, hy, if_true]
      exact Int.ceil_le_ceil hxy
    · simp only [hx, hy, if_true, if_false]
      refine le_trans (Int.ceil_le.mpr ?_) (Int.floor_nonneg.mpr (not_lt.mp hy))
      exact_mod_cast le_of_lt hx
  · have hy : ¬ y < 0 := fun h => hx (lt_of_le_of_lt hxy h)
    simp only [hx, hy, if_false]
    exact Int.floor_le_floor hxy

theorem filter_idem {β : Type} (p : β → Bool) (l : List β) :
    (l.filter p).filter p = l.filter p := by
  rw [List.filter_filter]
  congr 1
  funext a
  exact Bool.and_self (p a)

/-!
## Claims
-/

/-- C7: the eligibility filter (liquidity ≥ 200000 floor, positive P/L
respectively P/VP, dividend yield > 0, sector free of the excluded substring)
is idempotent: applying it to its own output removes no rows, for the FII
service and the acoes service alike. -/
theorem C7_filter_idempotent (t : List FRow) (u : List ARow) :
    filterFii (filterFii t) = filterFii t ∧
    filterAcoes (filterAcoes u) = filterAcoes u :=
  ⟨filter_idem _ t, filter_idem _ u⟩

/-- C9: when every fetched row is removed by the eligibility filters, each
report operation still completes and returns the empty report: the acoes
report, the FII ranking (for any sort key and any model of `np.log1p`) and the
USA report (whose `dy > 0` filter removing everything, or an empty fetch,
yields `[]` on the fresh-computation path). -/
theorem C9_filter_exhaustion_empty_report (t : List ARow) (u : List FRow)
    (log1p : ℚ → ℚ) (sortBy : String) (fetched : List URow) (st : UsaState)
    (today now : ℕ)
    (ht : filterAcoes t = []) (hu : filterFii u = [])
    (hf : fetched.filter (fun r => decide (0 < r.dy)) = [])
    (hflag : st.flag ≠ some today) (hmem : memValid st.mem now = false) :
    relatorioGeralAcoes t = [] ∧
    calculateRanking log1p sortBy u = [] ∧
    (usaInvoke st today now fetched).1 = [] := by
  refine ⟨?_, ?_, ?_⟩
  · unfold relatorioGeralAcoes
    rw [ht]
    rfl
  · unfold calculateRanking
    rw [hu]
    rfl
  · unfold usaInvoke
    rw [if_neg (fun h => hflag h.1), if_neg (by rw [hmem]; exact Bool.false_ne_true)]
    by_cases hfe : fetched = []
    · rw [if_pos hfe]
    · rw [if_neg hfe, if_pos hf]

/-- Witness for C9 at concrete inputs: a stock row failing the liquidity
floor, an FII row failing it too, and a US row without dividends. -/
theorem C9_witness :
    relatorioGeralAcoes [aRowNoLiq] = [] ∧
    calculateRanking (fun x => x) "smart" [fRowNoLiq] = [] ∧
    (usaInvoke usaStInit 0 0 [uRowNoDiv]).1 = [] :=
  C9_filter_exhaustion_empty_report _ _ _ _ _ _ _ _
    (by decide) (by decide) (by decide) (by decide) (by decide)

/-- C3 counterexample: when the Fundamentals Provider fetch fails and no
previously cached data exists, `fetch_fundamentus_data` re-raises the
exception instead of returning an empty result — the claim that an exception
is never propagated to the caller is false on the code. -/
theorem C3_counterexample :
    fetchFundamentusData none 5000 (.error ()) = .error () := rfl

/-- C3 amended: on a fetch failure the FII service falls back to the
in-memory cached table whenever one exists (however stale); with no cached
table it raises the exception to the caller instead of returning an empty
result.  The USA service on a fruitless fetch returns the empty list and
leaves its state (including any prior day's stored report) untouched — it
never falls back to a prior day's report. -/
theorem C3_fallback_amended (ts now now2 : ℕ) (d : List FRow) (st : UsaState)
    (today : ℕ) (hflag : st.flag ≠ some today) (hmem : memValid st.mem now2 = false) :
    fetchFundamentusData (some (ts, d)) now (.error ()) = .ok (d, some (ts, d)) ∧
    fetchFundamentusData none now (.error ()) = .error () ∧
    ((usaInvoke st today now2 []).1 = [] ∧ (usaInvoke st today now2 []).2.2 = st) := by
  refine ⟨?_, rfl, ?_⟩
  · by_cases h : now - ts < 3600 <;> simp [fetchFundamentusData, h]
  · unfold usaInvoke
    rw [if_neg (fun h => hflag h.1), if_neg (by rw [hmem]; exact Bool.false_ne_true),
      if_pos rfl]
    exact ⟨rfl, rfl⟩

/-- Witness for C3 amended at concrete inputs, including a state that holds a
prior day's (day 7) stored report while day 8 is requested. -/
theorem C3_witness :
    fetchFundamentusData (some (0, [])) 5000 (.error ()) = .ok ([], some (0, [])) ∧
    fetchFundamentusData none 5000 (.error ()) = .error () ∧
    ((usaInvoke usaStPrior 8 0 []).1 = [] ∧ (usaInvoke usaStPrior 8 0 []).2.2 = usaStPrior) :=
  C3_fallback_amended 0 5000 0 [] usaStPrior 8 (by decide) (by decide)

/-- C6: two assets identical in every Barsi scoring input (dividend yield,
price-to-book, return on equity, debt-to-equity) and differing only in
sector, with exactly one in a preferred sector: the preferred one's adjusted
composite is ≤ the other's (strictly smaller, in fact, since the 0.8 discount
applies to a positive score) and therefore its final rank is equal or
better. -/
theorem C6_sector_discount (t : List ARow) (r q : ARow)
    (hdy : r.dy = q.dy) (hpvp : r.p_vp = q.p_vp) (hroe : r.roe = q.roe)
    (hdiv : r.div_liq_patrimonio = q.div_liq_patrimonio)
    (hr : r.setor ∈ SETORES_BARSI_BEST) (hq : q.setor ∉ SETORES_BARSI_BEST) :
    barsiAdjusted t r ≤ barsiAdjusted t q ∧ rankingBarsi t r ≤ rankingBarsi t q := by
  have hs : scoreBarsi t r = scoreBarsi t q := by
    unfold scoreBarsi
    rw [hdy, hpvp, hroe, hdiv]
  have hpos : 0 < scoreBarsi t q := by
    unfold scoreBarsi
    have h1 := avgRankDesc_pos (t.map ARow.dy) q.dy
    have h2 := avgRankAsc_pos (t.map ARow.p_vp) q.p_vp
    have h3 := avgRankDesc_pos (t.map ARow.roe) q.roe
    have h4 := avgRankAsc_pos (t.map ARow.div_liq_patrimonio) q.div_liq_patrimonio
    linarith
  have hadj : barsiAdjusted t r ≤ barsiAdjusted t q := by
    unfold barsiAdjusted
    rw [if_pos hr, if_neg hq, hs]
    nlinarith
  exact ⟨hadj, avgRankAsc_le_of_le hadj⟩

/-- Witness for C6 at the concrete two-row table. -/
theorem C6_witness :
    barsiAdjusted barsiTable barsiRowPref ≤ barsiAdjusted barsiTable barsiRowOther ∧
    rankingBarsi barsiTable barsiRowPref ≤ rankingBarsi barsiTable barsiRowOther :=
  C6_sector_discount barsiTable barsiRowPref barsiRowOther
    rfl rfl rfl rfl (by decide) (by decide)

/-- Sorting a table by a rational key and exporting each row with an
integer-truncated copy of that key yields a list sorted on the exported
field. -/
theorem pairwise_mergeSort_map_key {β γ : Type} (key : β → ℚ) (out : β → γ)
    (kout : γ → ℤ) (hcomp : ∀ b, kout (out b) = truncQ (key b)) (l : List β) :
    ((l.mergeSort (fun a b => decide (key a ≤ key b))).map out).Pairwise
      (fun a b => kout a ≤ kout b) := by
  have htrans : ∀ a b c : β, decide (key a ≤ key b) = true →
      decide (key b ≤ key c) = true → decide (key a ≤ key c) = true := by
    intro a b c h1 h2
    simp only [decide_eq_true_eq] at h1 h2 ⊢
    exact le_trans h1 h2
  have htotal : ∀ a b : β,
      (decide (key a ≤ key b) || decide (key b ≤ key a)) = true := by
    intro a b
    simp only [Bool.or_eq_true, decide_eq_true_eq]
    exact le_total (key a) (key b)
  have hs := List.sorted_mergeSort htrans htotal l
  refine hs.map out ?_
  intro a b hab
  simp only [decide_eq_true_eq] at hab
  rw [hcomp a, hcomp b]
  exact truncQ_mono hab

/-- C10: `calculate_ranking` returns its records sorted ascending on the rank
position of the selected formula — `smart_pos` when `sort_by = 'smart'`,
`shank_pos` for any other sort key — for every input table and every model of
`np.log1p`, so the best-ranked asset under the requested formula comes
first. -/
theorem C10_calculateRanking_sorted (log1p : ℚ → ℚ) (t : List FRow) :
    (calculateRanking log1p "smart" t).Pairwise (fun a b => a.smart_pos ≤ b.smart_pos) ∧
    (∀ sortBy, sortBy ≠ "smart" →
      (calculateRanking log1p sortBy t).Pairwise (fun a b => a.shank_pos ≤ b.shank_pos)) := by
  constructor
  · unfold calculateRanking
    by_cases hf : filterFii t = []
    · simp [hf]
    · rw [if_neg hf, if_pos rfl]
      exact pairwise_mergeSort_map_key (smartPos log1p (filterFii t))
        (mkFOut log1p (filterFii t)) FOut.smart_pos (fun b => rfl) (filterFii t)
  · intro sortBy hs
    unfold calculateRanking
    by_cases hf : filterFii t = []
    · simp [hf]
    · rw [if_neg hf, if_neg hs]
      exact pairwise_mergeSort_map_key (shankPos (filterFii t))
        (mkFOut log1p (filterFii t)) FOut.shank_pos (fun b => rfl) (filterFii t)

/-- Witness for C10: the non-smart branch at a concrete table and sort key. -/
theorem C10_witness :
    (calculateRanking (fun x => x) "shank" fiiTable).Pairwise
      (fun a b => a.shank_pos ≤ b.shank_pos) :=
  (C10_calculateRanking_sorted (fun x => x) fiiTable).2 "shank" (by decide)

/-- C2 counterexample: a record with `ev_to_ebit = 0`, `price_to_book = 0`
and `price = 0` reaching the formulas makes the Bazin upside the float NaN
(`0/0`, modelled `none`), and that undefined value propagates into the
Bazin rank — so not every formula yields a defined score. -/
theorem C2_counterexample :
    upsideBazin zeroRow = none ∧ rankingBazin [zeroRow] zeroRow = none := by
  exact ⟨rfl, rfl⟩

/-- C2 amended: the guards make every formula total on the zero fields
except the Bazin upside at `price = 0`: a zero `ev_to_ebit` yields earnings
yield `0`, a non-positive `p_l` yields `lpa = 0` (and the Graham guard then
yields the sentinel, never a division), and for every record with
`price ≠ 0` the Bazin rank is a defined rational; the Joel, Graham and Barsi
ranks are total rational/natural values by construction.  Only a record with
`price = 0` makes the Bazin upside and rank NaN (no exception is raised). -/
theorem C2_zero_division_amended (t : List ARow) (r : ARow) (hpreco : r.preco ≠ 0) :
    (∃ v, rankingBazin t r = some v) ∧
    (∀ s : ARow, s.ev_ebit = 0 → earningYield s = 0) ∧
    (∀ s : ARow, ¬ 0 < s.p_l → s.lpa = 0) := by
  refine ⟨?_, ?_, ?_⟩
  · unfold rankingBazin bazinComposite upsideBazin
    rw [if_neg hpreco]
    exact ⟨_, rfl⟩
  · intro s h
    unfold earningYield
    rw [h]
    norm_num
  · intro s h
    unfold ARow.lpa
    rw [if_neg h]

/-- Witness for C2 amended at a concrete record with nonzero price. -/
theorem C2_witness :
    (∃ v, rankingBazin [grahamRowGood] grahamRowGood = some v) ∧
    (∀ s : ARow, s.ev_ebit = 0 → earningYield s = 0) ∧
    (∀ s : ARow, ¬ 0 < s.p_l → s.lpa = 0) :=
  C2_zero_division_amended [grahamRowGood] grahamRowGood (by decide)

/-- C8 counterexample: `grahamRowDeep` has positive intrinsic value but a
margin of safety below the sentinel −10, so the non-positive-intrinsic asset
`grahamRowNeg` ranks strictly *better* (smaller descending rank) on margin of
safety — refuting that non-positive intrinsic value always ranks last. -/
theorem C8_counterexample :
    0 < valorIntrinseco grahamRowDeep ∧ valorIntrinseco grahamRowNeg ≤ 0 ∧
    avgRankDesc (grahamTable.map margemSeg) (margemSeg grahamRowNeg) <
      avgRankDesc (grahamTable.map margemSeg) (margemSeg grahamRowDeep) := by
  refine ⟨?_, ?_, ?_⟩
  · norm_num [valorIntrinseco, ARow.lpa, grahamRowDeep]
  · norm_num [valorIntrinseco, ARow.lpa, grahamRowNeg]
  · refine avgRankDesc_lt_of_gt (List.mem_map_of_mem _ ?_) ?_
    · simp [grahamTable]
    · norm_num [margemSeg, valorIntrinseco, ARow.lpa, grahamRowDeep, grahamRowNeg]

/-- C8 amended: the margin of safety is `(intrinsic − price)/intrinsic` for
positive intrinsic value and the sentinel −10 otherwise (so no division by
zero ever happens), and a non-positive-intrinsic asset ranks strictly worse
on margin of safety than every positive-intrinsic asset *whose margin
exceeds −10* (equivalently, price < 11 × intrinsic value); the
counterexample shows the restriction cannot be dropped. -/
theorem C8_margin_of_safety_amended :
    (∀ r : ARow, 0 < valorIntrinseco r →
      margemSeg r = (valorIntrinseco r - r.preco) / valorIntrinseco r) ∧
    (∀ r : ARow, ¬ 0 < valorIntrinseco r → margemSeg r = -10) ∧
    (∀ (t : List ARow) (r q : ARow), r ∈ t → ¬ 0 < valorIntrinseco q →
      (-10 : ℚ) < margemSeg r →
      avgRankDesc (t.map margemSeg) (margemSeg r) <
        avgRankDesc (t.map margemSeg) (margemSeg q)) := by
  refine ⟨?_, ?_, ?_⟩
  · intro r h
    unfold margemSeg
    rw [if_pos h]
  · intro r h
    unfold margemSeg
    rw [if_neg h]
  · intro t r q hr hq hm
    have hq10 : margemSeg q = -10 := by
      unfold margemSeg
      rw [if_neg hq]
    rw [hq10]
    exact avgRankDesc_lt_of_gt (List.mem_map_of_mem _ hr) hm

/-- Witness for C8 amended: the strict-rank conjunct at a concrete pair. -/
theorem C8_witness :
    avgRankDesc ([grahamRowGood].map margemSeg) (margemSeg grahamRowGood) <
      avgRankDesc ([grahamRowGood].map margemSeg) (margemSeg grahamRowNeg) :=
  C8_margin_of_safety_amended.2.2 [grahamRowGood] grahamRowGood grahamRowNeg
    (by simp)
    (by norm_num [valorIntrinseco, ARow.lpa, grahamRowNeg])
    (by norm_num [margemSeg, valorIntrinseco, ARow.lpa, grahamRowGood])

/-- C1 counterexample: on a table of two perfectly tied rows the final
`RANKING_GRAHAM` of each row is `3/2` — pandas' default average ranking, not
a dense sequence of positive integers `1 … K` (here `K = 1`): the dense
tie-break is *not* applied consistently across all formulas. -/
theorem C1_counterexample :
    ¬ SpecDenseRanks (grahamComposite tieTable) (rankingGraham tieTable) tieTable := by
  intro h
  obtain ⟨k, hk, h1, h2⟩ := h.1 tieRowA (by simp [tieTable])
  have hval : rankingGraham tieTable tieRowA = 3/2 := by
    norm_num [rankingGraham, grahamComposite, avgRankAsc, avgRankDesc, margemSeg,
      valorIntrinseco, ARow.lpa, tieTable, tieRowA, tieRowB,
      List.countP_cons, List.countP_nil]
  have hcard : (tieTable.map (grahamComposite tieTable)).toFinset.card = 1 := by
    rw [show tieTable.map (grahamComposite tieTable) =
      [grahamComposite tieTable tieRowA, grahamComposite tieTable tieRowA] from rfl]
    simp
  rw [hcard] at h2
  have hk1 : k = 1 := le_antisymm h2 h1
  rw [hk1, hval] at hk
  norm_num at hk

/-- C1 amended: only the Joel (Value+Quality) formula uses dense ranking: its
final positions are positive integers `1 … K` (`K` = number of distinct
composite scores) attaining every value in between, and equal scores share
equal rank.  The Graham, Bazin and Barsi formulas instead use pandas' default
average ranking, for which only the tie-sharing part survives (tied composite
scores still share one — possibly fractional — rank). -/
theorem C1_dense_rank_amended (t : List ARow) :
    (∀ r ∈ t, 1 ≤ rankingJoel t r ∧
      rankingJoel t r ≤ (t.map (scoreJoel t)).toFinset.card) ∧
    (∀ k : ℕ, 1 ≤ k → k ≤ (t.map (scoreJoel t)).toFinset.card →
      ∃ r ∈ t, rankingJoel t r = k) ∧
    (∀ r q : ARow, scoreJoel t r = scoreJoel t q →
      rankingJoel t r = rankingJoel t q) ∧
    (∀ r q : ARow, grahamComposite t r = grahamComposite t q →
      rankingGraham t r = rankingGraham t q) ∧
    (∀ r q : ARow, bazinComposite t r = bazinComposite t q →
      rankingBazin t r = rankingBazin t q) ∧
    (∀ r q : ARow, barsiAdjusted t r = barsiAdjusted t q →
      rankingBarsi t r = rankingBarsi t q) := by
  refine ⟨?_, ?_, ?_, ?_, ?_, ?_⟩
  · intro r hr
    exact ⟨one_le_denseRankAsc _ _, denseRankAsc_le_card (List.mem_map_of_mem _ hr)⟩
  · intro k h1 h2
    obtain ⟨x, hx, hrank⟩ := exists_denseRankAsc_eq (t.map (scoreJoel t)) k h1 h2
    obtain ⟨r, hrt, hfr⟩ := List.mem_map.mp hx
    refine ⟨r, hrt, ?_⟩
    unfold rankingJoel
    rw [hfr]
    exact hrank
  · intro r q h
    unfold rankingJoel
    rw [h]
  · intro r q h
    unfold rankingGraham
    rw [h]
  · intro r q h
    unfold rankingBazin
    rw [h]
  · intro r q h
    unfold rankingBarsi
    rw [h]

/-- Witness for C1 amended: the bounds conjunct at the concrete tied table. -/
theorem C1_witness :
    1 ≤ rankingJoel tieTable tieRowA ∧
    rankingJoel tieTable tieRowA ≤ (tieTable.map (scoreJoel tieTable)).toFinset.card :=
  (C1_dense_rank_amended tieTable).1 tieRowA (by simp [tieTable])

/-- The earnings yield of row `i` of the Joel table is `1 / (i + 1)`. -/
theorem mkJRow_earningYield (i : ℕ) : earningYield (mkJRow i) = ((i : ℚ) + 1)⁻¹ := by
  show (if 0 < ((i : ℚ) + 1) then 1 / ((i : ℚ) + 1) else 0) = ((i : ℚ) + 1)⁻¹
  rw [if_pos (by positivity), one_div]

/-- `i ↦ 1 / (i + 1)` is strictly decreasing. -/
theorem eyFun_strictAnti : StrictAnti (fun i : ℕ => ((i : ℚ) + 1)⁻¹) := by
  intro a b hab
  simp only
  rw [← one_div, ← one_div]
  refine one_div_lt_one_div_of_lt (by positivity) ?_
  have : (a : ℚ) < (b : ℚ) := by exact_mod_cast hab
  linarith

/-- `i ↦ -i` is strictly decreasing. -/
theorem roicFun_strictAnti : StrictAnti (fun i : ℕ => -(i : ℚ)) := by
  intro a b hab
  simp only [neg_lt_neg_iff]
  exact_mod_cast hab

/-- The dense earnings-yield rank of row `i` of the Joel table is `i + 1`. -/
theorem rankEY_joelTable (i : ℕ) (hi : i < 500001) :
    rankEarningYield joelTable (mkJRow i) = i + 1 := by
  unfold rankEarningYield joelTable
  rw [List.map_map,
    show earningYield ∘ mkJRow = fun j : ℕ => ((j : ℚ) + 1)⁻¹ from
      funext (fun j => mkJRow_earningYield j),
    mkJRow_earningYield i]
  exact denseRankDesc_map_strictAnti _ eyFun_strictAnti hi

/-- The dense ROIC rank of row `i` of the Joel table is `i + 1`. -/
theorem rankRoic_joelTable (i : ℕ) (hi : i < 500001) :
    rankRoic joelTable (mkJRow i) = i + 1 := by
  unfold rankRoic joelTable
  rw [List.map_map,
    show ARow.roic ∘ mkJRow = fun j : ℕ => -(j : ℚ) from funext (fun j => rfl),
    show (mkJRow i).roic = -(i : ℚ) from rfl]
  exact denseRankDesc_map_strictAnti _ roicFun_strictAnti hi

/-- Unfolding equation for the Joel composite score (on variables, so that
later rewrites never force the kernel to evaluate a 500001-row table). -/
theorem scoreJoel_eq (t : List ARow) (r : ARow) :
    scoreJoel t r = rankEarningYield t r + rankRoic t r + joelPenalty r := rfl

/-- Unfolding equation for the final Joel rank. -/
theorem rankingJoel_eq (t : List ARow) (r : ARow) :
    rankingJoel t r = denseRankAsc (t.map (scoreJoel t)) (scoreJoel t r) := rfl

/-- The penalty of row 0 of the Joel table (sector "Financeiro"). -/
theorem joelPenalty_row0 : joelPenalty (mkJRow 0) = 1000000 := by
  unfold joelPenalty
  rw [if_pos (by decide)]

/-- The penalty of row 500000 of the Joel table (sector "Outros"). -/
theorem joelPenalty_rowLast : joelPenalty (mkJRow 500000) = 0 := by
  unfold joelPenalty
  rw [if_neg (by decide)]

/-- Row 0 (penalized, best metrics) scores `1 + 1 + 1000000`. -/
theorem scoreJoel_row0 : scoreJoel joelTable (mkJRow 0) = 1000002 := by
  rw [scoreJoel_eq, rankEY_joelTable 0 (by norm_num), rankRoic_joelTable 0 (by norm_num),
    joelPenalty_row0]

/-- Row 500000 (non-penalized, worst metrics) scores `500001 + 500001`. -/
theorem scoreJoel_rowLast : scoreJoel joelTable (mkJRow 500000) = 1000002 := by
  rw [scoreJoel_eq, rankEY_joelTable 500000 (by norm_num),
    rankRoic_joelTable 500000 (by norm_num), joelPenalty_rowLast]

/-- C5 counterexample: on the 500001-row table the penalized row 0 and the
non-penalized row 500000 have equal composite scores (1000002), hence equal
final dense rank — the penalized asset is *not* strictly worse than every
non-excluded asset, so the claim's "for every input snapshot" fails. -/
theorem C5_counterexample :
    mkJRow 0 ∈ joelTable ∧ mkJRow 500000 ∈ joelTable ∧
    (mkJRow 0).setor ∈ SETORES_JOEL_PENALIZADOS ∧
    (mkJRow 500000).setor ∉ SETORES_JOEL_PENALIZADOS ∧
    rankingJoel joelTable (mkJRow 500000) = rankingJoel joelTable (mkJRow 0) := by
  refine ⟨?_, ?_, by decide, by decide, ?_⟩
  · exact List.mem_map_of_mem _ (List.mem_range.mpr (by norm_num))
  · exact List.mem_map_of_mem _ (List.mem_range.mpr (by norm_num))
  · rw [rankingJoel_eq, rankingJoel_eq, scoreJoel_rowLast, scoreJoel_row0]

/-- C5 amended: penalized-sector assets always remain present in the output
report (the filters never look at the penalty), and on every snapshot of at
most 500000 rows — where the two base dense ranks sum to at most
`2·500000 < 1000002` — each penalized asset's final Joel rank is strictly
worse than every non-penalized asset's.  The counterexample shows the size
bound cannot be dropped. -/
theorem C5_joel_penalty_amended :
    (∀ (t0 : List ARow) (r : ARow), r ∈ filterAcoes t0 →
      mkAOut (filterAcoes t0) r ∈ relatorioGeralAcoes t0) ∧
    (∀ t : List ARow, t.length ≤ 500000 → ∀ r ∈ t, ∀ q ∈ t,
      r.setor ∈ SETORES_JOEL_PENALIZADOS → q.setor ∉ SETORES_JOEL_PENALIZADOS →
      rankingJoel t q < rankingJoel t r) := by
  constructor
  · intro t0 r hr
    exact List.mem_map_of_mem _ hr
  · intro t hlen r hr q hq hrp hqp
    have hq_ey : rankEarningYield t q ≤ t.length :=
      le_trans (denseRankDesc_le_card (List.mem_map_of_mem _ hq))
        (le_trans (List.toFinset_card_le _) (le_of_eq (List.length_map _ _)))
    have hq_roic : rankRoic t q ≤ t.length :=
      le_trans (denseRankDesc_le_card (List.mem_map_of_mem _ hq))
        (le_trans (List.toFinset_card_le _) (le_of_eq (List.length_map _ _)))
    have hscore_q : scoreJoel t q ≤ 2 * t.length := by
      unfold scoreJoel
      rw [show joelPenalty q = 0 from by unfold joelPenalty; rw [if_neg hqp]]
      omega
    have hr_ey : 1 ≤ rankEarningYield t r := one_le_denseRankDesc _ _
    have hr_roic : 1 ≤ rankRoic t r := one_le_denseRankDesc _ _
    have hscore_r : 1000002 ≤ scoreJoel t r := by
      unfold scoreJoel
      rw [show joelPenalty r = 1000000 from by unfold joelPenalty; rw [if_pos hrp]]
      omega
    have hlt : scoreJoel t q < scoreJoel t r := by omega
    exact denseRankAsc_lt_of_lt (List.mem_map_of_mem _ hq) hlt

/-- Witness for C5 amended on a small concrete table. -/
theorem C5_witness :
    rankingJoel barsiTable barsiRowOther < rankingJoel barsiTable barsiRowPref :=
  C5_joel_penalty_amended.2 barsiTable (by decide)
    barsiRowPref (by simp [barsiTable]) barsiRowOther (by simp [barsiTable])
    (by decide) (by decide)

/-- C4: the daily Firestore cache of the USA report.  (i) The cache invariant
— a set daily flag implies the store holds that day's non-empty report —
holds initially and is preserved by every invocation; (ii) under the
invariant, while the flag matches today no Fundamentals Provider fetch
happens; (iii) starting stale (flag not today, memory cache expired), two
same-day invocations perform exactly one provider fetch in total — the first
fetches and sets the flag, the second is served from the store; (iv) the
in-memory TTL entry: no fetch happens while `now - timestamp < 86400`. -/
theorem C4_daily_cache :
    UsaInv usaStInit ∧
    (∀ (st : UsaState) (today now : ℕ) (fetched : List URow), UsaInv st →
      UsaInv (usaInvoke st today now fetched).2.2) ∧
    (∀ (st : UsaState) (today now : ℕ) (fetched : List URow), UsaInv st →
      st.flag = some today → (usaInvoke st today now fetched).2.1 = 0) ∧
    (∀ (st : UsaState) (today now now2 : ℕ) (fetched fetched2 : List URow),
      st.flag ≠ some today → memValid st.mem now = false →
      fetched.filter (fun r => decide (0 < r.dy)) ≠ [] →
      (usaInvoke st today now fetched).2.1 = 1 ∧
      (usaInvoke (usaInvoke st today now fetched).2.2 today now2 fetched2).2.1 = 0) ∧
    (∀ (st : UsaState) (today now : ℕ) (fetched : List URow) (ts : ℕ) (d : List URow),
      st.mem = some (ts, d) → now - ts < 86400 →
      (usaInvoke st today now fetched).2.1 = 0) := by
  refine ⟨?_, ?_, ?_, ?_, ?_⟩
  · intro d hd
    exact absurd hd (by simp [usaStInit])
  · intro st today now fetched hInv
    unfold usaInvoke
    by_cases h1 : st.flag = some today ∧ loadStore st.store today ≠ []
    · rw [if_pos h1]
      exact fun d hd => hInv d hd
    · rw [if_neg h1]
      by_cases h2 : memValid st.mem now = true
      · rw [if_pos h2]
        exact hInv
      · rw [if_neg h2]
        by_cases h3 : fetched = []
        · rw [if_pos h3]
          exact hInv
        · rw [if_neg h3]
          by_cases h4 : fetched.filter (fun r => decide (0 < r.dy)) = []
          · rw [if_pos h4]
            exact hInv
          · rw [if_neg h4]
            intro d hd
            have hd2 : today = d := Option.some_inj.mp hd
            exact ⟨fetched.filter (fun r => decide (0 < r.dy)), by rw [← hd2], h4⟩
  · intro st today now fetched hInv hflag
    obtain ⟨recs, hst, hne⟩ := hInv today hflag
    have hload : loadStore st.store today = recs := by
      rw [hst]
      simp [loadStore]
    unfold usaInvoke
    rw [if_pos ⟨hflag, by rw [hload]; exact hne⟩]
  · intro st today now now2 fetched fetched2 hflag hmem hfil
    have hfe : fetched ≠ [] := by
      intro h
      exact hfil (by rw [h]; rfl)
    have hstep : usaInvoke st today now fetched =
        (fetched.filter (fun r => decide (0 < r.dy)), 1,
          { flag := some today
            store := some (today, fetched.filter (fun r => decide (0 < r.dy)))
            mem := some (now, fetched.filter (fun r => decide (0 < r.dy))) }) := by
      unfold usaInvoke
      rw [if_neg (fun h => hflag h.1), if_neg (by rw [hmem]; exact Bool.false_ne_true),
        if_neg hfe, if_neg hfil]
    refine ⟨by rw [hstep], ?_⟩
    have hne2 : loadStore (some (today, fetched.filter (fun r => decide (0 < r.dy))))
        today ≠ [] := by
      show (if today = today then fetched.filter (fun r => decide (0 < r.dy)) else []) ≠ []
      rw [if_pos rfl]
      exact hfil
    rw [hstep]
    unfold usaInvoke
    rw [if_pos ⟨rfl, hne2⟩]
  · intro st today now fetched ts d hmem htime
    unfold usaInvoke
    by_cases h1 : st.flag = some today ∧ loadStore st.store today ≠ []
    · rw [if_pos h1]
    · rw [if_neg h1, if_pos (by rw [hmem]; exact decide_eq_true htime)]

/-- Witness for C4: from the cold initial state, a first invocation with one
dividend-paying fetched row performs one fetch, a same-day second invocation
performs none. -/
theorem C4_witness :
    (usaInvoke usaStInit 0 0 [uRowDiv]).2.1 = 1 ∧
    (usaInvoke (usaInvoke usaStInit 0 0 [uRowDiv]).2.2 0 100 []).2.1 = 0 :=
  (C4_daily_cache.2.2.2.1) usaStInit 0 0 100 [uRowDiv] []
    (by simp [usaStInit]) (by rfl) (by decide)

end Market
